import Mathlib

/-!
Verification of the Repomap pipeline (`generateRepomap.ts`).

The embedding works over `List Char` for JavaScript strings and `ℚ` for
JavaScript numbers (numeric semantics idealized as exact rationals).
JSON values are modelled by the inductive `Json`; `JSON.parse` is modelled
by an executable recursive-descent parser faithful to the JSON grammar
(rejecting trailing commas, unquoted keys and comments, exactly as the
builtin does).  Each regular-expression operation of the source is
modelled by a dedicated executable function mirroring the JS regex
semantics (leftmost match, greedy or lazy quantifiers, alternation order,
backtracking) for that specific pattern.
-/

namespace Repomap

/-- Model of a JavaScript JSON value.  Numbers are idealized as exact
rationals; strings are lists of characters. -/
inductive Json where
  | null
  | bool (b : Bool)
  | num (q : ℚ)
  | str (s : List Char)
  | arr (xs : List Json)
  | obj (fields : List (List Char × Json))

/-- Property lookup on a JSON object: the last binding of a duplicated key
wins, as in `JSON.parse`.  Lookup on a non-object yields `none`
(JavaScript `undefined`). -/
def getField : Json → List Char → Option Json
  | .obj fs, k => fs.foldl (fun acc p => if p.1 = k then some p.2 else acc) none
  | _, _ => none

/-- JavaScript truthiness of a JSON value. -/
def jsTruthy : Json → Bool
  | .null => false
  | .bool b => b
  | .num q => decide (q ≠ 0)
  | .str s => decide (s ≠ [])
  | .arr _ => true
  | .obj _ => true

/-! A model of the builtin `JSON.parse`

An executable recursive-descent parser for the JSON grammar, faithful to
the builtin: it rejects trailing commas, unquoted keys, comments,
unescaped control characters in strings, and leading zeros in numbers.
Numbers evaluate to exact rationals.  Recursion is fuelled so that every
definition reduces inside the kernel. -/

def isWsJson (c : Char) : Bool :=
  c = ' ' || c = '\t' || c = '\n' || c = '\r'

def skipWs : List Char → List Char
  | [] => []
  | c :: rest => if isWsJson c then skipWs rest else c :: rest

def hexVal (c : Char) : Option Nat :=
  if c.isDigit then some (c.toNat - 48)
  else if 'a' ≤ c ∧ c ≤ 'f' then some (c.toNat - 87)
  else if 'A' ≤ c ∧ c ≤ 'F' then some (c.toNat - 55)
  else none

/-- Body of a JSON string after the opening quote: returns the decoded
characters and the remaining input past the closing quote. -/
def parseStringBody (acc : List Char) : List Char → Option (List Char × List Char)
  | [] => none
  | c :: rest =>
    if c = '"' then some (acc.reverse, rest)
    else if c = '\\' then
      match rest with
      | [] => none
      | e :: rest2 =>
        if e = '"' then parseStringBody ('"' :: acc) rest2
        else if e = '\\' then parseStringBody ('\\' :: acc) rest2
        else if e = '/' then parseStringBody ('/' :: acc) rest2
        else if e = 'b' then parseStringBody ('\x08' :: acc) rest2
        else if e = 'f' then parseStringBody ('\x0c' :: acc) rest2
        else if e = 'n' then parseStringBody ('\n' :: acc) rest2
        else if e = 'r' then parseStringBody ('\r' :: acc) rest2
        else if e = 't' then parseStringBody ('\t' :: acc) rest2
        else if e = 'u' then
          match rest2 with
          | h1 :: h2 :: h3 :: h4 :: rest3 =>
            match hexVal h1, hexVal h2, hexVal h3, hexVal h4 with
            | some a, some b, some c2, some d =>
              parseStringBody (Char.ofNat (((a * 16 + b) * 16 + c2) * 16 + d) :: acc) rest3
            | _, _, _, _ => none
          | _ => none
        else none
    else if c.toNat < 32 then none
    else parseStringBody (c :: acc) rest

def digitsToNat (ds : List Char) : Nat :=
  ds.foldl (fun a c => a * 10 + (c.toNat - 48)) 0

/-- Optional fraction part `.digits` of a JSON number. -/
def parseFracPart : List Char → Option (ℚ × List Char)
  | '.' :: r =>
    let fs := r.takeWhile Char.isDigit
    if fs = [] then none
    else some ((digitsToNat fs : ℚ) / (10 : ℚ) ^ fs.length, r.dropWhile Char.isDigit)
  | cs => some (0, cs)

/-- Optional exponent part of a JSON number. -/
def parseExpPart : List Char → Option (ℤ × List Char)
  | [] => some (0, [])
  | c :: r =>
    if c = 'e' ∨ c = 'E' then
      let sr : ℤ × List Char :=
        match r with
        | '+' :: t => (1, t)
        | '-' :: t => (-1, t)
        | _ => (1, r)
      let ds := sr.2.takeWhile Char.isDigit
      if ds = [] then none
      else some (sr.1 * (digitsToNat ds : ℤ), sr.2.dropWhile Char.isDigit)
    else some (0, c :: r)

/-- A JSON number: optional minus, integer part without leading zeros,
optional fraction, optional exponent. -/
def parseNumber (cs : List Char) : Option (ℚ × List Char) :=
  let sgn : ℚ × List Char :=
    match cs with
    | '-' :: r => (-1, r)
    | _ => (1, cs)
  match sgn.2 with
  | [] => none
  | c :: _ =>
    if ¬ c.isDigit then none
    else
      let ds := sgn.2.takeWhile Char.isDigit
      let cs2 := sgn.2.dropWhile Char.isDigit
      if 1 < ds.length ∧ c = '0' then none
      else
        match parseFracPart cs2 with
        | none => none
        | some (fq, cs3) =>
          match parseExpPart cs3 with
          | none => none
          | some (ex, cs4) =>
            some (sgn.1 * ((digitsToNat ds : ℚ) + fq) * (10 : ℚ) ^ ex, cs4)

/-- Parsing mode: a value, the elements of an array after `[`, or the
members of an object after `{`. -/
inductive JMode where
  | value
  | elems (acc : List Json)
  | membs (acc : List (List Char × Json))

/-- Fuelled recursive-descent JSON parser. -/
def parseJ : Nat → JMode → List Char → Option (Json × List Char)
  | 0, _, _ => none
  | Nat.succ n, JMode.value, cs =>
    match skipWs cs with
    | [] => none
    | c :: rest =>
      if c = '{' then
        match skipWs rest with
        | '}' :: r2 => some (Json.obj [], r2)
        | r2 => parseJ n (JMode.membs []) r2
      else if c = '[' then
        match skipWs rest with
        | ']' :: r2 => some (Json.arr [], r2)
        | r2 => parseJ n (JMode.elems []) r2
      else if c = '"' then
        (parseStringBody [] rest).map (fun p => (Json.str p.1, p.2))
      else if c = 't' then
        match rest with
        | 'r' :: 'u' :: 'e' :: r => some (Json.bool true, r)
        | _ => none
      else if c = 'f' then
        match rest with
        | 'a' :: 'l' :: 's' :: 'e' :: r => some (Json.bool false, r)
        | _ => none
      else if c = 'n' then
        match rest with
        | 'u' :: 'l' :: 'l' :: r => some (Json.null, r)
        | _ => none
      else if c = '-' ∨ c.isDigit then
        (parseNumber (c :: rest)).map (fun p => (Json.num p.1, p.2))
      else none
  | Nat.succ n, JMode.membs acc, cs =>
    match skipWs cs with
    | '"' :: rest =>
      match parseStringBody [] rest with
      | some (k, r1) =>
        match skipWs r1 with
        | ':' :: r2 =>
          match parseJ n JMode.value r2 with
          | some (v, r3) =>
            match skipWs r3 with
            | ',' :: r4 => parseJ n (JMode.membs (acc ++ [(k, v)])) r4
            | '}' :: r4 => some (Json.obj (acc ++ [(k, v)]), r4)
            | _ => none
          | none => none
        | _ => none
      | none => none
    | _ => none
  | Nat.succ n, JMode.elems acc, cs =>
    match parseJ n JMode.value cs with
    | some (v, r1) =>
      match skipWs r1 with
      | ',' :: r2 => parseJ n (JMode.elems (acc ++ [v])) r2
      | ']' :: r2 => some (Json.arr (acc ++ [v]), r2)
      | _ => none
    | none => none

/-- Model of `JSON.parse`: `none` is a thrown `SyntaxError`. -/
def jsonParse (cs : List Char) : Option Json :=
  match parseJ (2 * cs.length + 2) JMode.value cs with
  | some (j, rest) => if skipWs rest = [] then some j else none
  | none => none






/-! Font size scaling (source lines 270-273 and 980-985)

    const MIN_LINES = 100; const MAX_LINES = 500;
    const MIN_FONT = 10; const MAX_FONT = 20;

    function calculateFontSize(lines) {
      if (lines <= MIN_LINES) return MIN_FONT;
      if (lines >= MAX_LINES) return MAX_FONT;
      const ratio = (lines - MIN_LINES) / (MAX_LINES - MIN_LINES);
      return MIN_FONT + ratio * (MAX_FONT - MIN_FONT);
    }
-/

def MIN_LINES : ℚ := 100
def MAX_LINES : ℚ := 500
def MIN_FONT : ℚ := 10
def MAX_FONT : ℚ := 20

/-- Function `calculateFontSize` from the source, over idealized JS numbers. -/
def calculateFontSize (lines : ℚ) : ℚ :=
  if lines ≤ MIN_LINES then MIN_FONT
  else if MAX_LINES ≤ lines then MAX_FONT
  else
    let ratio := (lines - MIN_LINES) / (MAX_LINES - MIN_LINES)
    MIN_FONT + ratio * (MAX_FONT - MIN_FONT)

lemma calculateFontSize_low {L : ℚ} (h : L ≤ 100) : calculateFontSize L = 10 := by
  simp [calculateFontSize, MIN_LINES, MIN_FONT, h]

lemma calculateFontSize_high {L : ℚ} (h : 500 ≤ L) : calculateFontSize L = 20 := by
  have h1 : ¬ L ≤ 100 := by linarith
  simp [calculateFontSize, MIN_LINES, MAX_LINES, MIN_FONT, MAX_FONT, h, h1]

lemma calculateFontSize_mid {L : ℚ} (h1 : 100 < L) (h2 : L < 500) :
    calculateFontSize L = 10 + (L - 100) / 400 * 10 := by
  have h1' : ¬ L ≤ 100 := by linarith
  have h2' : ¬ (500 : ℚ) ≤ L := by linarith
  simp [calculateFontSize, MIN_LINES, MAX_LINES, MIN_FONT, MAX_FONT, h1', h2']
  norm_num

lemma calculateFontSize_mid_bounds {L : ℚ} (h1 : 100 < L) (h2 : L < 500) :
    10 ≤ calculateFontSize L ∧ calculateFontSize L ≤ 20 := by
  rw [calculateFontSize_mid h1 h2]
  constructor <;> nlinarith

/-- C1.  The font size function is exactly 10 at or below 100 lines,
exactly 20 at or above 500, the exact linear interpolation in between, and
monotonically non-decreasing. -/
theorem calculateFontSize_policy :
    (∀ L : ℚ, L ≤ 100 → calculateFontSize L = 10) ∧
    (∀ L : ℚ, 500 ≤ L → calculateFontSize L = 20) ∧
    (∀ L : ℚ, 100 < L → L < 500 →
      calculateFontSize L = 10 + (L - 100) / 400 * 10) ∧
    (∀ a b : ℚ, a ≤ b → calculateFontSize a ≤ calculateFontSize b) := by
  refine ⟨fun L h => calculateFontSize_low h,
         fun L h => calculateFontSize_high h,
         fun L h1 h2 => calculateFontSize_mid h1 h2, ?_⟩
  intro a b hab
  rcases le_or_lt a 100 with ha | ha
  · rw [calculateFontSize_low ha]
    rcases le_or_lt b 100 with hb | hb
    · rw [calculateFontSize_low hb]
    · rcases le_or_lt 500 b with hb5 | hb5
      · rw [calculateFontSize_high hb5]; norm_num
      · exact (calculateFontSize_mid_bounds hb hb5).1
  · rcases le_or_lt 500 a with ha5 | ha5
    · rw [calculateFontSize_high ha5, calculateFontSize_high (le_trans ha5 hab)]
    · rcases le_or_lt 500 b with hb5 | hb5
      · rw [calculateFontSize_high hb5]
        exact (calculateFontSize_mid_bounds ha ha5).2
      · have hb : 100 < b := lt_of_lt_of_le ha hab
        rw [calculateFontSize_mid ha ha5, calculateFontSize_mid hb hb5]
        have : (a - 100) / 400 * 10 ≤ (b - 100) / 400 * 10 := by nlinarith
        linarith

/-- C1 witness: concrete evaluations through the theorem. -/
theorem calculateFontSize_policy_witness :
    calculateFontSize 50 = 10 ∧ calculateFontSize 600 = 20 ∧
    calculateFontSize 300 = 10 + (300 - 100) / 400 * 10 ∧
    calculateFontSize 50 ≤ calculateFontSize 300 :=
  ⟨calculateFontSize_policy.1 50 (by decide),
   calculateFontSize_policy.2.1 600 (by decide),
   calculateFontSize_policy.2.2.1 300 (by decide) (by decide),
   calculateFontSize_policy.2.2.2 50 300 (by decide)⟩

/-! Line-oriented string infrastructure

`splitNl` and `joinNl` model `String.prototype.split("\n")` and
`Array.prototype.join("\n")`. -/

def splitNl : List Char → List (List Char)
  | [] => [[]]
  | c :: rest =>
    if c = '\n' then [] :: splitNl rest
    else
      match splitNl rest with
      | [] => [[c]]
      | p :: ps => (c :: p) :: ps

def joinNl : List (List Char) → List Char
  | [] => []
  | [p] => p
  | p :: ps => p ++ '\n' :: joinNl ps

/-! The node-declaration pattern (source line 928)

    const nodeRegex = /^(\s*)([a-zA-Z0-9_]+)\((\[?"?([^\"]+)"?\]?)\)/;

Modelled with the exact backtracking order of the JS engine: each
optional bracket or quote prefers to consume its character and falls back
to the empty match; the character class run is tried greedily from its
maximal length downward.  Backtracking over `\s*` and the identifier run
is vacuous because whitespace, identifier characters and the literal `(`
are pairwise disjoint, so maximal-run matching is exact for those two. -/

def isWsChar (c : Char) : Bool :=
  c = ' ' || c = '\t' || c = '\n' || c = '\r' || c = '\x0b' || c = '\x0c'

def isIdentChar (c : Char) : Bool :=
  ('a' ≤ c && c ≤ 'z') || ('A' ≤ c && c ≤ 'Z') || ('0' ≤ c && c ≤ '9') || c = '_'

/-- Matches the final literal close paren of the pattern. -/
def tailParen : List Char → Bool
  | ')' :: _ => true
  | _ => false

/-- Matches the pattern tail beginning at the optional close bracket. -/
def tailRBracket (cs : List Char) : Bool :=
  match cs with
  | ']' :: r => tailParen r || tailParen cs
  | _ => tailParen cs

/-- Matches the pattern tail beginning at the optional closing quote. -/
def tailQuote (cs : List Char) : Bool :=
  match cs with
  | '"' :: r => tailRBracket r || tailRBracket cs
  | _ => tailRBracket cs

/-- Greedy match of the label class run: try length `k` downward, keeping
the longest prefix of non-quote characters whose tail completes. -/
def coreLoop (cs : List Char) : Nat → Option (List Char)
  | 0 => none
  | Nat.succ k => if tailQuote (cs.drop (k + 1)) then some (cs.take (k + 1)) else coreLoop cs k

def coreMatch (cs : List Char) : Option (List Char) :=
  coreLoop cs (cs.takeWhile (fun c => c ≠ '"')).length

/-- The optional opening quote, preferring to consume it. -/
def afterQuoteOpt (cs : List Char) : Option (List Char) :=
  match cs with
  | '"' :: r => (coreMatch r).orElse (fun _ => coreMatch cs)
  | _ => coreMatch cs

/-- The optional opening bracket, preferring to consume it. -/
def execInnerMatch (cs : List Char) : Option (List Char) :=
  match cs with
  | '[' :: r => (afterQuoteOpt r).orElse (fun _ => afterQuoteOpt cs)
  | _ => afterQuoteOpt cs

/-- Running `nodeRegex.exec(line)`: on success returns capture groups 2 and 4,
the node identifier and the label text.  The whitespace prefix is group 1
(dropped by `dropWhile isWsChar`); the identifier run is group 2. -/
def execNodeRegex (line : List Char) : Option (List Char × List Char) :=
  match (line.dropWhile isWsChar).dropWhile isIdentChar with
  | '(' :: rest3 =>
    if (line.dropWhile isWsChar).takeWhile isIdentChar = [] then none
    else (execInnerMatch rest3).map
      (fun label => ((line.dropWhile isWsChar).takeWhile isIdentChar, label))
  | _ => none


/-! Number rendering

`jsNumToString` models the template-literal rendering of a JS number.
Integers print as decimal integers; non-integers print their decimal
expansion, exact for every terminating decimal of at most twenty digits
(every font size the program produces is such a number). -/

def digitChar (n : Nat) : Char :=
  match n with
  | 0 => '0' | 1 => '1' | 2 => '2' | 3 => '3' | 4 => '4'
  | 5 => '5' | 6 => '6' | 7 => '7' | 8 => '8' | _ => '9'

def natDigitsAux : Nat → Nat → List Char
  | 0, _ => []
  | fuel + 1, n =>
    if n < 10 then [digitChar n]
    else natDigitsAux fuel (n / 10) ++ [digitChar (n % 10)]

def natToChars (n : Nat) : List Char := natDigitsAux (n + 1) n

def fracDigitsAux : Nat → Nat → Nat → List Char
  | 0, _, _ => []
  | fuel + 1, r, d =>
    if r = 0 then []
    else digitChar (r * 10 / d) :: fracDigitsAux fuel (r * 10 % d) d

def jsNumToString (q : ℚ) : List Char :=
  (if q.num < 0 then ['-'] else []) ++
    (if q.den = 1 then natToChars q.num.natAbs
     else natToChars (q.num.natAbs / q.den) ++ '.' ::
       fracDigitsAux 20 (q.num.natAbs % q.den) q.den)


/-! The diagram mutator (source lines 923-944)

    function applyFontSizeScaling(diagram, lineCountMap) {
      const lines = diagram.split("\n");
      const newLines = [];
      for (const line of lines) {
        newLines.push(line);
        const match = nodeRegex.exec(line);
        if (match) {
          const nodeId = match[2];
          const filename = match[4];
          const linesCount = lineCountMap.get(filename);
          if (linesCount !== undefined) {
            const fontSize = calculateFontSize(linesCount);
            newLines.push(`style $\x7bnodeId\x7d font-size:$\x7bfontSize\x7dpx;`);
          }
        }
      }
      return newLines.join("\n");
    }

The line-count map values are the parsed line numbers, which are natural
numbers; they are cast to the idealized JS number type at the
`calculateFontSize` call. -/

/-- JavaScript `Map.get` on an insertion-ordered map with unique keys. -/
def mapGet (m : List (List Char × Nat)) (k : List Char) : Option Nat :=
  match m with
  | [] => none
  | p :: rest => if p.1 = k then some p.2 else mapGet rest k

/-- JavaScript `Map.set`: overwrite in place when the key exists, else append. -/
def mapSet (m : List (List Char × Nat)) (k : List Char) (v : Nat) :
    List (List Char × Nat) :=
  match m with
  | [] => [(k, v)]
  | p :: rest => if p.1 = k then (k, v) :: rest else p :: mapSet rest k v

/-- The injected style directive for one node. -/
def styleLineFor (nodeId : List Char) (fs : ℚ) : List Char :=
  "style ".data ++ nodeId ++ " font-size:".data ++ jsNumToString fs ++ "px;".data

/-- The (possibly empty) list of style lines pushed after one line. -/
def annotStyle (m : List (List Char × Nat)) (line : List Char) : List (List Char) :=
  match execNodeRegex line with
  | some (nodeId, filename) =>
    match mapGet m filename with
    | some n => [styleLineFor nodeId (calculateFontSize (n : ℚ))]
    | none => []
  | none => []

/-- One iteration of the loop body: the line itself, then the inserted
style line when the node pattern matches and the label is a map key. -/
def annotateLine (m : List (List Char × Nat)) (line : List Char) : List (List Char) :=
  line :: annotStyle m line

/-- Function `applyFontSizeScaling` from the source. -/
def applyFontSizeScaling (diagram : List Char) (m : List (List Char × Nat)) :
    List Char :=
  joinNl ((splitNl diagram).flatMap (annotateLine m))

/-! Structural lemmas about lines and the mutator -/

lemma splitNl_ne_nil (cs : List Char) : splitNl cs ≠ [] := by
  induction cs with
  | nil => simp [splitNl]
  | cons c rest ih =>
    by_cases hc : c = '\n'
    · simp [splitNl, hc]
    · cases h : splitNl rest with
      | nil => exact absurd h ih
      | cons p ps => simp [splitNl, hc, h]

lemma nl_not_mem_splitNl (cs : List Char) : ∀ p ∈ splitNl cs, '\n' ∉ p := by
  induction cs with
  | nil =>
    intro p hp
    simp [splitNl] at hp
    simp [hp]
  | cons c rest ih =>
    intro p hp
    by_cases hc : c = '\n'
    · simp [splitNl, hc] at hp
      rcases hp with h | h
      · simp [h]
      · exact ih p h
    · cases h : splitNl rest with
      | nil => exact absurd h (splitNl_ne_nil rest)
      | cons q qs =>
        simp [splitNl, hc, h] at hp
        rcases hp with h1 | h1
        · subst h1
          intro hmem
          rcases List.mem_cons.mp hmem with h2 | h2
          · exact hc h2.symm
          · exact ih q (by simp [h]) h2
        · exact ih p (by simp [h, h1])

lemma splitNl_no_nl {p : List Char} (h : '\n' ∉ p) : splitNl p = [p] := by
  induction p with
  | nil => rfl
  | cons c rest ih =>
    have hc : c ≠ '\n' := fun e => h (by simp [e])
    have hr : '\n' ∉ rest := fun hm => h (by simp [hm])
    simp [splitNl, hc, ih hr]

lemma splitNl_append_nl {p t : List Char} (h : '\n' ∉ p) :
    splitNl (p ++ '\n' :: t) = p :: splitNl t := by
  induction p with
  | nil => simp [splitNl]
  | cons c rest ih =>
    have hc : c ≠ '\n' := fun e => h (by simp [e])
    have hr : '\n' ∉ rest := fun hm => h (by simp [hm])
    simp [splitNl, hc, ih hr]

lemma splitNl_joinNl : ∀ {ls : List (List Char)},
    (∀ p ∈ ls, '\n' ∉ p) → ls ≠ [] → splitNl (joinNl ls) = ls := by
  intro ls
  induction ls with
  | nil => intro _ h; exact absurd rfl h
  | cons p ps ih =>
    intro hnl _
    cases ps with
    | nil => simpa [joinNl] using splitNl_no_nl (hnl p (by simp))
    | cons q qs =>
      have h1 : joinNl (p :: q :: qs) = p ++ '\n' :: joinNl (q :: qs) := rfl
      rw [h1, splitNl_append_nl (hnl p (by simp)),
        ih (fun r hr => hnl r (by simp [hr])) (by simp)]

lemma digitChar_ne_nl (n : Nat) : digitChar n ≠ '\n' := by
  unfold digitChar
  split <;> decide

lemma nl_not_mem_natDigitsAux (fuel n : Nat) : '\n' ∉ natDigitsAux fuel n := by
  induction fuel generalizing n with
  | zero => simp [natDigitsAux]
  | succ f ih =>
    by_cases h : n < 10 <;>
      simp [natDigitsAux, h, ih, Ne.symm (digitChar_ne_nl _)]

lemma nl_not_mem_fracDigitsAux (fuel r d : Nat) : '\n' ∉ fracDigitsAux fuel r d := by
  induction fuel generalizing r with
  | zero => simp [fracDigitsAux]
  | succ f ih =>
    by_cases h : r = 0 <;>
      simp [fracDigitsAux, h, ih, Ne.symm (digitChar_ne_nl _)]

lemma nl_not_mem_jsNumToString (q : ℚ) : '\n' ∉ jsNumToString q := by
  unfold jsNumToString natToChars
  intro hm
  rcases List.mem_append.mp hm with h | h
  · split at h <;> simp_all
  · split at h
    · exact nl_not_mem_natDigitsAux _ _ h
    · rcases List.mem_append.mp h with h1 | h1
      · exact nl_not_mem_natDigitsAux _ _ h1
      · rcases List.mem_cons.mp h1 with h2 | h2
        · exact absurd h2.symm (by decide)
        · exact nl_not_mem_fracDigitsAux _ _ _ h2

lemma nl_not_mem_styleLineFor {nodeId : List Char} (fs : ℚ)
    (h : '\n' ∉ nodeId) : '\n' ∉ styleLineFor nodeId fs := by
  unfold styleLineFor
  intro hm
  simp only [List.mem_append] at hm
  rcases hm with (((h1 | h1) | h1) | h1) | h1
  · exact absurd h1 (by decide)
  · exact h h1
  · exact absurd h1 (by decide)
  · exact nl_not_mem_jsNumToString fs h1
  · exact absurd h1 (by decide)

lemma execNodeRegex_ident {line nodeId label : List Char}
    (h : execNodeRegex line = some (nodeId, label)) : ∀ c ∈ nodeId, isIdentChar c := by
  unfold execNodeRegex at h
  split at h
  · split at h
    · exact absurd h (by simp)
    · rcases Option.map_eq_some'.mp h with ⟨lab, _, heq⟩
      have : nodeId = (line.dropWhile isWsChar).takeWhile isIdentChar := by
        cases heq; rfl
      intro c hc
      rw [this] at hc
      exact List.mem_takeWhile_imp hc
  · exact absurd h (by simp)

lemma execNodeRegex_styleLineFor (nodeId : List Char) (fs : ℚ) :
    execNodeRegex (styleLineFor nodeId fs) = none := rfl

lemma annotStyle_mem {m : List (List Char × Nat)} {l s : List Char}
    (h : s ∈ annotStyle m l) :
    ∃ nodeId fs, s = styleLineFor nodeId fs ∧ ∀ c ∈ nodeId, isIdentChar c := by
  unfold annotStyle at h
  split at h
  case h_1 nodeId filename heq =>
    split at h
    case h_1 n heq2 =>
      exact ⟨nodeId, calculateFontSize (n : ℚ), by simpa using h,
        execNodeRegex_ident heq⟩
    case h_2 => exact absurd h (by simp)
  case h_2 => exact absurd h (by simp)

lemma splitNl_apply (d : List Char) (m : List (List Char × Nat)) :
    splitNl (applyFontSizeScaling d m) = (splitNl d).flatMap (annotateLine m) := by
  unfold applyFontSizeScaling
  apply splitNl_joinNl
  · intro p hp
    rw [List.mem_flatMap] at hp
    obtain ⟨l, hl, hp⟩ := hp
    rcases List.mem_cons.mp hp with h1 | h1
    · exact h1 ▸ nl_not_mem_splitNl d l hl
    · obtain ⟨nodeId, fs, rfl, hid⟩ := annotStyle_mem h1
      exact nl_not_mem_styleLineFor fs fun hm => absurd (hid '\n' hm) (by decide)
  · cases hs : splitNl d with
    | nil => exact absurd hs (splitNl_ne_nil d)
    | cons p ps => simp [annotateLine]

lemma styleLineFor_isStyle (nodeId : List Char) (fs : ℚ) :
    ("style ".data).isPrefixOf (styleLineFor nodeId fs) = true := by
  rw [List.isPrefixOf_iff_prefix]
  unfold styleLineFor
  simp only [List.append_assoc]
  exact List.prefix_append _ _

/-- C6.  The annotator is a pure insertion transform: every input line
appears unchanged and in order in the output (the input lines form a
sublist of the output lines), and every output line is either an input
line or an inserted style directive.  In particular unrecognized lines
pass through unchanged. -/
theorem applyFontSizeScaling_frame (d : List Char) (m : List (List Char × Nat)) :
    (splitNl d).Sublist (splitNl (applyFontSizeScaling d m)) ∧
    ∀ l ∈ splitNl (applyFontSizeScaling d m),
      l ∈ splitNl d ∨ ("style ".data).isPrefixOf l = true := by
  rw [splitNl_apply]
  constructor
  · generalize splitNl d = L
    induction L with
    | nil => simp
    | cons l ls ih =>
      simp only [List.flatMap_cons, annotateLine, List.cons_append]
      exact List.Sublist.cons₂ l (ih.trans (List.sublist_append_right _ _))
  · intro l hl
    rw [List.mem_flatMap] at hl
    obtain ⟨x, hx, hl⟩ := hl
    rcases List.mem_cons.mp hl with h1 | h1
    · exact Or.inl (h1 ▸ hx)
    · obtain ⟨nodeId, fs, rfl, _⟩ := annotStyle_mem h1
      exact Or.inr (styleLineFor_isStyle nodeId fs)

/-- The style directives the annotator inserts, as a line predicate. -/
def isStyleDirective (l : List Char) : Bool := ("style ".data).isPrefixOf l

lemma flatMap_eq_self {α : Type} {l : List α} {f : α → List α}
    (h : ∀ x ∈ l, f x = [x]) : l.flatMap f = l := by
  induction l with
  | nil => simp
  | cons a as ih => simp [h a (by simp), ih fun x hx => h x (by simp [hx])]

/-- C7.  Reapplying the annotator with the same line-count map does not
change the set of distinct style-directive lines: reapplication only
duplicates existing style lines. -/
theorem applyFontSizeScaling_idempotent_bindings (d : List Char)
    (m : List (List Char × Nat)) :
    ((splitNl (applyFontSizeScaling (applyFontSizeScaling d m) m)).filter
        isStyleDirective).toFinset =
      ((splitNl (applyFontSizeScaling d m)).filter isStyleDirective).toFinset := by
  rw [splitNl_apply, splitNl_apply, List.flatMap_assoc]
  have hstep : ∀ l, (annotateLine m l).flatMap (annotateLine m) =
      (l :: annotStyle m l) ++ annotStyle m l := by
    intro l
    have hself : (annotStyle m l).flatMap (annotateLine m) = annotStyle m l := by
      apply flatMap_eq_self
      intro s hs
      obtain ⟨nodeId, fs, rfl, _⟩ := annotStyle_mem hs
      simp [annotateLine, annotStyle, execNodeRegex_styleLineFor]
    simp [annotateLine, hself]
  simp only [hstep]
  ext x
  simp only [List.mem_toFinset, List.mem_filter, List.mem_flatMap, List.mem_append,
    List.mem_cons, annotateLine]
  constructor
  · rintro ⟨⟨l, hl, hx⟩, hp⟩
    exact ⟨⟨l, hl, by tauto⟩, hp⟩
  · rintro ⟨⟨l, hl, hx⟩, hp⟩
    exact ⟨⟨l, hl, by tauto⟩, hp⟩

/-! C5: the annotator inserts one style line after each matched node -/

/-- The end-to-end scenario diagram from the spec. -/
def exampleDiagram : List Char :=
  "flowchart TB\n  home([\"Home.tsx\"])\n  header([\"Header.tsx\"])".data

/-- The end-to-end scenario line-count map from the spec. -/
def exampleLineCounts : List (List Char × Nat) :=
  [("Home.tsx".data, 50), ("Header.tsx".data, 300)]

/-- The expected annotated output of the end-to-end scenario. -/
def exampleAnnotated : List Char :=
  ("flowchart TB\n  home([\"Home.tsx\"])\nstyle home font-size:10px;\n" ++
    "  header([\"Header.tsx\"])\nstyle header font-size:15px;").data

/-- C5.  For every line matching the node pattern whose label is a key of
the map, the annotator inserts the single style line directly after it;
and the end-to-end scenario of the spec produces exactly the expected
text, with `style home font-size:10px;` and `style header font-size:15px;`
inserted after their node lines. -/
theorem applyFontSizeScaling_inserts :
    (∀ (pre suf : List (List Char)) (l : List Char) (m : List (List Char × Nat))
      (nodeId label : List Char) (n : Nat),
      (∀ p ∈ pre ++ l :: suf, '\n' ∉ p) →
      execNodeRegex l = some (nodeId, label) →
      mapGet m label = some n →
      splitNl (applyFontSizeScaling (joinNl (pre ++ l :: suf)) m) =
        pre.flatMap (annotateLine m) ++
          l :: styleLineFor nodeId (calculateFontSize (n : ℚ)) ::
            suf.flatMap (annotateLine m)) ∧
    applyFontSizeScaling exampleDiagram exampleLineCounts = exampleAnnotated := by
  constructor
  · intro pre suf l m nodeId label n hnl hexec hget
    unfold applyFontSizeScaling
    rw [splitNl_joinNl hnl (by simp), List.flatMap_append, List.flatMap_cons]
    have hline : annotateLine m l =
        [l, styleLineFor nodeId (calculateFontSize (n : ℚ))] := by
      simp [annotateLine, annotStyle, hexec, hget]
    rw [hline]
    simp only [List.cons_append, List.nil_append, List.append_assoc]
    apply splitNl_joinNl
    · intro p hp
      rcases List.mem_append.mp hp with h | h
      · rw [List.mem_flatMap] at h
        obtain ⟨x, hx, hmem⟩ := h
        rcases List.mem_cons.mp hmem with h1 | h1
        · exact h1 ▸ hnl x (by simp [hx])
        · obtain ⟨id2, fs2, rfl, hid⟩ := annotStyle_mem h1
          exact nl_not_mem_styleLineFor fs2 fun hm => absurd (hid _ hm) (by decide)
      · rcases List.mem_cons.mp h with h1 | h1
        · exact h1 ▸ hnl l (by simp)
        · rcases List.mem_cons.mp h1 with h2 | h2
          · subst h2
            exact nl_not_mem_styleLineFor _ fun hm =>
              absurd (execNodeRegex_ident hexec _ hm) (by decide)
          · rw [List.mem_flatMap] at h2
            obtain ⟨x, hx, hmem⟩ := h2
            rcases List.mem_cons.mp hmem with h3 | h3
            · exact h3 ▸ hnl x (by simp [hx])
            · obtain ⟨id2, fs2, rfl, hid⟩ := annotStyle_mem h3
              exact nl_not_mem_styleLineFor fs2 fun hm => absurd (hid _ hm) (by decide)
    · simp
  · have h50 : calculateFontSize ((50 : Nat) : ℚ) = 10 := by
      norm_num [calculateFontSize, MIN_LINES, MIN_FONT]
    have h300 : calculateFontSize ((300 : Nat) : ℚ) = 15 := by
      norm_num [calculateFontSize, MIN_LINES, MAX_LINES, MIN_FONT, MAX_FONT]
    have hs : splitNl exampleDiagram =
        ["flowchart TB".data, "  home([\"Home.tsx\"])".data,
          "  header([\"Header.tsx\"])".data] := rfl
    have h1 : annotStyle exampleLineCounts "flowchart TB".data = [] := rfl
    have h2 : annotStyle exampleLineCounts "  home([\"Home.tsx\"])".data =
        [styleLineFor "home".data (calculateFontSize ((50 : Nat) : ℚ))] := rfl
    have h3 : annotStyle exampleLineCounts "  header([\"Header.tsx\"])".data =
        [styleLineFor "header".data (calculateFontSize ((300 : Nat) : ℚ))] := rfl
    unfold applyFontSizeScaling
    rw [hs]
    simp only [List.flatMap_cons, List.flatMap_nil, annotateLine, h1, h2, h3,
      h50, h300]
    rfl

/-- C5 witness: the general insertion statement applied to a concrete
one-node diagram. -/
theorem applyFontSizeScaling_inserts_witness :
    splitNl (applyFontSizeScaling
        (joinNl (["flowchart TB".data] ++ "  f([\"A.ts\"])".data :: []))
        [("A.ts".data, 50)]) =
      ["flowchart TB".data].flatMap (annotateLine [("A.ts".data, 50)]) ++
        "  f([\"A.ts\"])".data ::
          styleLineFor "f".data (calculateFontSize ((50 : Nat) : ℚ)) ::
            List.flatMap [] (annotateLine [("A.ts".data, 50)]) :=
  applyFontSizeScaling_inserts.1 ["flowchart TB".data] [] "  f([\"A.ts\"])".data
    [("A.ts".data, 50)] "f".data "A.ts".data 50 (by decide) rfl rfl

/-! Line-count extraction (source lines 953-971)

    function parseLineCountsFromRepomix(repofile) {
      const content = fs.readFileSync(repofile, "utf8");
      const lineCountMap = new Map();
      const fileRegex = /<file path="([^"]+)">([\s\S]*?)<\/file>/g;
      let match;
      while ((match = fileRegex.exec(content)) !== null) {
        const filePath = match[1];
        const fileContent = match[2];
        let maxLine = 0;
        const lineMatches = fileContent.matchAll(/^(\d+):/gm);
        for (const lm of lineMatches) {
          const num = parseInt(lm[1], 10);
          if (num > maxLine) maxLine = num;
        }
        const filename = path.basename(filePath);
        lineCountMap.set(filename, maxLine);
      }
      return lineCountMap;
    }

The block regex is modelled by a fuelled scanner that advances one
character on a failed match attempt (the engine's leftmost-match search)
and resumes after the closing tag on success; the path group is the
maximal non-quote run, and the lazy body group ends at the earliest
closing tag.  The multiline line-number pattern is evaluated per line. -/

/-- Index of the first occurrence of `pat` as a contiguous sub-sequence. -/
def findSubIdx (pat : List Char) : List Char → Option Nat
  | [] => if pat = [] then some 0 else none
  | c :: rest =>
    if pat.isPrefixOf (c :: rest) then some 0
    else (findSubIdx pat rest).map (· + 1)

/-- All matches of the file-block pattern, in document order. -/
def extractFileBlocks : Nat → List Char → List (List Char × List Char)
  | 0, _ => []
  | fuel + 1, cs =>
    match cs with
    | [] => []
    | _ :: rest =>
      if ("<file path=\"".data).isPrefixOf cs then
        let after := cs.drop 12
        let p := after.takeWhile (fun ch => ch ≠ '"')
        let rest2 := after.dropWhile (fun ch => ch ≠ '"')
        if p ≠ [] ∧ ("\">".data).isPrefixOf rest2 then
          match findSubIdx ("</file>".data) (rest2.drop 2) with
          | some i =>
            (p, (rest2.drop 2).take i) ::
              extractFileBlocks fuel ((rest2.drop 2).drop (i + 7))
          | none => extractFileBlocks fuel rest
        else extractFileBlocks fuel rest
      else extractFileBlocks fuel rest

/-- The `^(\d+):` multiline pattern on a single line: the leading digit
run immediately followed by a colon. -/
def linePrefNum (line : List Char) : Option Nat :=
  let ds := line.takeWhile Char.isDigit
  if ds = [] then none
  else
    match line.dropWhile Char.isDigit with
    | ':' :: _ => some (digitsToNat ds)
    | _ => none

/-- The maximum numbered line of a block body (0 when none). -/
def maxLineNumber (body : List Char) : Nat :=
  ((splitNl body).filterMap linePrefNum).foldl max 0

/-- Node's posix `path.basename`: strip trailing separators, then take
the component after the last separator. -/
def basename (p : List Char) : List Char :=
  if p = [] then []
  else
    let q := (p.reverse.dropWhile (fun c => c = '/')).reverse
    if q = [] then ['/']
    else (q.reverse.takeWhile (fun c => c ≠ '/')).reverse

/-- Function `parseLineCountsFromRepomix` on the file content. -/
def parseLineCountsFromRepomix (content : List Char) : List (List Char × Nat) :=
  (extractFileBlocks content.length content).foldl
    (fun m pb => mapSet m (basename pb.1) (maxLineNumber pb.2)) []



/-! Map fold lemmas -/

lemma mapGet_mapSet_self (m : List (List Char × Nat)) (k : List Char) (v : Nat) :
    mapGet (mapSet m k v) k = some v := by
  induction m with
  | nil => simp [mapSet, mapGet]
  | cons p rest ih =>
    by_cases h : p.1 = k <;> simp [mapSet, mapGet, h, ih]

lemma mapGet_mapSet_ne (m : List (List Char × Nat)) {k k2 : List Char}
    (h : k2 ≠ k) (v : Nat) : mapGet (mapSet m k v) k2 = mapGet m k2 := by
  induction m with
  | nil => simp [mapSet, mapGet, h, Ne.symm h]
  | cons p rest ih =>
    by_cases hp : p.1 = k
    · simp [mapSet, mapGet, hp, h, Ne.symm h]
    · by_cases hp2 : p.1 = k2 <;> simp [mapSet, mapGet, hp, hp2, ih, h, Ne.symm h]

lemma foldl_mapSet_not_mem (l : List (List Char × Nat))
    (m0 : List (List Char × Nat)) (k : List Char)
    (h : k ∉ l.map Prod.fst) :
    mapGet (l.foldl (fun acc kv => mapSet acc kv.1 kv.2) m0) k = mapGet m0 k := by
  induction l generalizing m0 with
  | nil => rfl
  | cons kv rest ih =>
    have h1 : k ∉ rest.map Prod.fst := fun hm => h (by simp [hm])
    have h2 : k ≠ kv.1 := fun e => h (by simp [e])
    rw [List.foldl_cons, ih _ h1, mapGet_mapSet_ne _ h2]

lemma foldl_mapSet_lookup (k : List Char) (v : Nat) :
    ∀ (l : List (List Char × Nat)) (m0 : List (List Char × Nat)),
      (k, v) ∈ l → (l.map Prod.fst).Nodup →
      mapGet (l.foldl (fun acc kv => mapSet acc kv.1 kv.2) m0) k = some v := by
  intro l
  induction l with
  | nil => intro m0 hmem _; simp at hmem
  | cons kv rest ih =>
    intro m0 hmem hnd
    rcases List.mem_cons.mp hmem with h | h
    · have hk : kv.1 = k := by rw [← h]
      have hnot : k ∉ rest.map Prod.fst := by
        rw [← hk]
        exact (List.nodup_cons.mp hnd).1
      rw [List.foldl_cons, foldl_mapSet_not_mem _ _ _ hnot, ← h,
        mapGet_mapSet_self]
    · exact ih _ h (List.nodup_cons.mp hnd).2

lemma le_foldl_max (ns : List Nat) (a : Nat) : ∀ x ∈ ns, x ≤ ns.foldl max a := by
  induction ns generalizing a with
  | nil => simp
  | cons n rest ih =>
    intro x hx
    rcases List.mem_cons.mp hx with h | h
    · subst h
      calc x ≤ max a x := le_max_right a x
        _ ≤ rest.foldl max (max a x) := by
            clear ih hx
            induction rest generalizing a x with
            | nil => simp
            | cons r rs ih2 =>
              simp only [List.foldl_cons]
              exact le_trans (le_max_left _ r) (ih2 _ _)
    · exact ih _ x h

lemma foldl_max_cases (ns : List Nat) (a : Nat) :
    ns.foldl max a = a ∨ ns.foldl max a ∈ ns := by
  induction ns generalizing a with
  | nil => simp
  | cons n rest ih =>
    rw [List.foldl_cons]
    rcases ih (max a n) with h | h
    · rcases Nat.le_total a n with hle | hle
      · rw [h, Nat.max_eq_right hle]
        exact Or.inr (by simp)
      · rw [h, Nat.max_eq_left hle]
        exact Or.inl rfl
    · exact Or.inr (by simp [h])

/-- C9.  When the blocks of the document have pairwise distinct
basenames, the extracted map assigns to each block's basename exactly the
maximum line-number prefix occurring in that block's body (an upper bound
that is attained unless it is the default 0), and 0 when the block has no
line-number-prefixed line. -/
theorem parseLineCounts_per_block (content p body : List Char)
    (hmem : (p, body) ∈ extractFileBlocks content.length content)
    (hnd : ((extractFileBlocks content.length content).map
      (fun pb => basename pb.1)).Nodup) :
    mapGet (parseLineCountsFromRepomix content) (basename p) =
      some (maxLineNumber body) ∧
    (∀ l ∈ splitNl body, ∀ k, linePrefNum l = some k → k ≤ maxLineNumber body) ∧
    (maxLineNumber body = 0 ∨
      ∃ l ∈ splitNl body, linePrefNum l = some (maxLineNumber body)) ∧
    ((∀ l ∈ splitNl body, linePrefNum l = none) → maxLineNumber body = 0) := by
  refine ⟨?_, ?_, ?_, ?_⟩
  · unfold parseLineCountsFromRepomix
    have hfold : (extractFileBlocks content.length content).foldl
        (fun m pb => mapSet m (basename pb.1) (maxLineNumber pb.2)) [] =
        ((extractFileBlocks content.length content).map
          (fun pb => (basename pb.1, maxLineNumber pb.2))).foldl
          (fun acc kv => mapSet acc kv.1 kv.2) [] := by
      rw [List.foldl_map]
    rw [hfold]
    apply foldl_mapSet_lookup
    · exact List.mem_map.mpr ⟨(p, body), hmem, rfl⟩
    · rw [List.map_map]
      exact hnd
  · intro l hl k hk
    unfold maxLineNumber
    exact le_foldl_max _ 0 k (List.mem_filterMap.mpr ⟨l, hl, hk⟩)
  · rcases foldl_max_cases ((splitNl body).filterMap linePrefNum) 0 with h | h
    · exact Or.inl h
    · obtain ⟨l, hl, hk⟩ := List.mem_filterMap.mp h
      exact Or.inr ⟨l, hl, hk⟩
  · intro hnone
    unfold maxLineNumber
    have : (splitNl body).filterMap linePrefNum = [] := by
      apply List.filterMap_eq_nil_iff.mpr
      intro l hl
      rw [hnone l hl]
    rw [this]
    rfl

/-- C9 witness: a concrete two-block document with distinct basenames. -/
theorem parseLineCounts_per_block_witness :
    mapGet (parseLineCountsFromRepomix
        "<file path=\"src/App.tsx\">\n1:a\n2:b\n</file><file path=\"lib/u.ts\">\nx\n</file>".data)
        (basename "src/App.tsx".data) =
      some (maxLineNumber "\n1:a\n2:b\n".data) ∧
    (∀ l ∈ splitNl "\n1:a\n2:b\n".data, ∀ k, linePrefNum l = some k →
      k ≤ maxLineNumber "\n1:a\n2:b\n".data) ∧
    (maxLineNumber "\n1:a\n2:b\n".data = 0 ∨
      ∃ l ∈ splitNl "\n1:a\n2:b\n".data,
        linePrefNum l = some (maxLineNumber "\n1:a\n2:b\n".data)) ∧
    ((∀ l ∈ splitNl "\n1:a\n2:b\n".data, linePrefNum l = none) →
      maxLineNumber "\n1:a\n2:b\n".data = 0) :=
  parseLineCounts_per_block
    "<file path=\"src/App.tsx\">\n1:a\n2:b\n</file><file path=\"lib/u.ts\">\nx\n</file>".data
    "src/App.tsx".data "\n1:a\n2:b\n".data (by decide) (by decide)

/-- C10.  When exactly two blocks share a basename, the map has a single
entry for that basename holding the later block's maximum line number:
the later block silently overwrites the earlier one. -/
theorem parseLineCounts_collision (content p1 b1 p2 b2 : List Char)
    (hblocks : extractFileBlocks content.length content = [(p1, b1), (p2, b2)])
    (heq : basename p1 = basename p2) :
    parseLineCountsFromRepomix content = [(basename p2, maxLineNumber b2)] := by
  unfold parseLineCountsFromRepomix
  rw [hblocks]
  simp [mapSet, heq]

/-- C10 witness: two blocks whose paths share the basename `f.ts`; the
map holds one entry with the later block's count 2. -/
theorem parseLineCounts_collision_witness :
    parseLineCountsFromRepomix
        "<file path=\"a/f.ts\">\n1:x\n</file><file path=\"b/f.ts\">\n1:y\n2:z\n</file>".data =
      [(basename "b/f.ts".data, maxLineNumber "\n1:y\n2:z\n".data)] :=
  parseLineCounts_collision
    "<file path=\"a/f.ts\">\n1:x\n</file><file path=\"b/f.ts\">\n1:y\n2:z\n</file>".data
    "a/f.ts".data "\n1:x\n".data "b/f.ts".data "\n1:y\n2:z\n".data (by decide) rfl

/-! C2: the diagram stage result handling (source lines 761-772)

    const data = await response.json();
    const diagram = data.choices?.[0]?.message?.content;
    if (diagram) { return diagram; }
    else { throw new Error("No Mermaid diagram generated."); }

and the diagram schema (source lines 385-387), where the header wording
lives only in a `.describe(...)` annotation, which zod does not enforce:

    const diagramSchema = z.object({
      diagram: z.string().describe("mermaid diagram starting with 'flowchart TB'"),
    });
-/

/-- JavaScript `x[0]` on a JSON value: array head, first character of a
string, undefined otherwise. -/
def jsIndex0 : Json → Option Json
  | .arr (x :: _) => some x
  | .str (c :: _) => some (Json.str [c])
  | _ => none

/-- The optional chain `data.choices?.[0]?.message?.content`. -/
def optChainContent (data : Json) : Option Json :=
  match getField data "choices".data with
  | none => none
  | some c =>
    match jsIndex0 c with
    | none => none
    | some c0 =>
      match getField c0 "message".data with
      | none => none
      | some msg => getField msg "content".data

/-- The result handling of `generateMermaidDiagram` after the response
body is parsed: return the content when truthy, else throw. -/
def generateMermaidDiagramResult (data : Json) : Except (List Char) Json :=
  match optChainContent data with
  | some v =>
    if jsTruthy v then Except.ok v
    else Except.error "No Mermaid diagram generated.".data
  | none => Except.error "No Mermaid diagram generated.".data

def isJString : Json → Bool
  | .str _ => true
  | _ => false

def isJObj : Json → Bool
  | .obj _ => true
  | _ => false

/-- Success of `diagramSchema.parse`: an object whose `diagram` field is a
string.  The `.describe` text is not a validation. -/
def diagramSchemaAccepts (j : Json) : Bool :=
  isJObj j &&
  (match getField j "diagram".data with
   | some v => isJString v
   | none => false)

/-- The required header literal test. -/
def startsWithFlowchartTB (s : List Char) : Bool :=
  ("flowchart TB".data).isPrefixOf s

/-- A response envelope whose diagram text does not start with the
required header. -/
def headerlessResponse : Json :=
  Json.obj [("choices".data,
    Json.arr [Json.obj [("message".data,
      Json.obj [("content".data, Json.str "graph LR\n A --> B".data)])]])]

/-- C2 counterexample.  A diagram text that does not begin with
`flowchart TB` is returned as the pipeline's success value rather than
rejected: there is no contract-check stage; the schema also accepts it. -/
theorem no_header_contract_check :
    generateMermaidDiagramResult headerlessResponse =
      Except.ok (Json.str "graph LR\n A --> B".data) ∧
    startsWithFlowchartTB "graph LR\n A --> B".data = false ∧
    diagramSchemaAccepts
      (Json.obj [("diagram".data, Json.str "graph LR\n A --> B".data)]) = true ∧
    ¬ (∀ (data : Json) (s : List Char),
        generateMermaidDiagramResult data = Except.ok (Json.str s) →
        startsWithFlowchartTB s = true) := by
  refine ⟨rfl, rfl, rfl, fun h => ?_⟩
  have := h headerlessResponse "graph LR\n A --> B".data rfl
  simp [startsWithFlowchartTB] at this

/-- C2 amended.  The diagram stage performs a truthiness check only: the
call succeeds with value `v` exactly when the optional chain produced `v`
and `v` is truthy (in particular any non-empty string is returned even
without the header); the only hard failure is absent or falsy content.
The diagram schema accepts every object whose `diagram` field is a
string, regardless of its leading characters. -/
theorem generateMermaid_truthiness_only :
    (∀ (data v : Json),
      generateMermaidDiagramResult data = Except.ok v ↔
        optChainContent data = some v ∧ jsTruthy v = true) ∧
    (∀ s : List Char,
      diagramSchemaAccepts (Json.obj [("diagram".data, Json.str s)]) = true) := by
  constructor
  · intro data v
    unfold generateMermaidDiagramResult
    cases h : optChainContent data with
    | none => simp
    | some w =>
      show (if jsTruthy w = true then Except.ok w
          else Except.error "No Mermaid diagram generated.".data) = Except.ok v ↔
        some w = some v ∧ jsTruthy v = true
      by_cases ht : jsTruthy w = true
      · rw [if_pos ht]
        constructor
        · intro he
          cases he
          exact ⟨rfl, ht⟩
        · rintro ⟨hw, _⟩
          cases hw
          rfl
      · rw [if_neg ht]
        simp only [Bool.not_eq_true] at ht
        constructor
        · intro he
          exact absurd he (by simp)
        · rintro ⟨hw, htv⟩
          cases hw
          rw [ht] at htv
          exact absurd htv (by simp)
  · intro s
    rfl

/-! C8: the change-proposal schema (source lines 247-252, 393-414)

    const ROLE_DEFINITIONS = [
      { role: "page", shape: "rectangle", color: "#d0ebff" },
      { role: "component", shape: "stadium", color: "#d3f9d8" },
      { role: "service", shape: "circle", color: "#ffe8cc" },
      { role: "config", shape: "triangle", color: "#ffe3e3" },
    ];

    const changesSchema = z.object({
      newNodes: z.array(z.object({ id: z.string(), label: z.string(),
        role: z.enum(ROLE_DEFINITIONS.map((r) => r.role)) })),
      newEdges: z.array(z.object({ from: z.string(), to: z.string(),
        relationship: z.string(), proposed: z.boolean() })),
      explanation: z.string().describe("..."),
    });

zod semantics of the modelled combinators: `z.object` requires a plain
object with every listed key present and valid (extra keys are stripped,
not rejected); `z.string()` accepts every string including the empty
string; `z.enum` requires a string drawn from the given list;
`z.boolean()` requires a boolean; `z.array` requires an array with every
element valid. -/

structure RoleDef where
  role : List Char
  shape : List Char
  color : List Char

def ROLE_DEFINITIONS : List RoleDef :=
  [⟨"page".data, "rectangle".data, "#d0ebff".data⟩,
   ⟨"component".data, "stadium".data, "#d3f9d8".data⟩,
   ⟨"service".data, "circle".data, "#ffe8cc".data⟩,
   ⟨"config".data, "triangle".data, "#ffe3e3".data⟩]

def RELATIONSHIP_VERBS : List (List Char) :=
  ["uses".data, "calls".data, "renders".data, "fetches from".data,
   "provides data to".data]

/-- Value of `ROLE_DEFINITIONS.map((r) => r.role)`: the enum fed to `z.enum`. -/
def roleEnum : List (List Char) := ROLE_DEFINITIONS.map (fun r => r.role)

def isStrField (o : Option Json) : Bool :=
  match o with
  | some (Json.str _) => true
  | _ => false

/-- Validation of one `newNodes` entry. -/
def validNode (j : Json) : Bool :=
  isJObj j && isStrField (getField j "id".data) &&
    isStrField (getField j "label".data) &&
    (match getField j "role".data with
     | some (Json.str r) => roleEnum.contains r
     | _ => false)

/-- Validation of one `newEdges` entry. -/
def validEdge (j : Json) : Bool :=
  isJObj j && isStrField (getField j "from".data) &&
    isStrField (getField j "to".data) &&
    isStrField (getField j "relationship".data) &&
    (match getField j "proposed".data with
     | some (Json.bool _) => true
     | _ => false)

/-- Success of `changesSchema.parse`. -/
def changesSchemaAccepts (j : Json) : Bool :=
  isJObj j &&
  (match getField j "newNodes".data with
   | some (Json.arr ns) => ns.all validNode
   | _ => false) &&
  (match getField j "newEdges".data with
   | some (Json.arr es) => es.all validEdge
   | _ => false) &&
  isStrField (getField j "explanation".data)

/-- One `newNodes` entry as the claim describes it: non-empty id,
non-empty label, role from the catalog. -/
def claimNodeOk (j : Json) : Bool :=
  (match getField j "id".data with
   | some (Json.str s) => decide (s ≠ [])
   | _ => false) &&
  (match getField j "label".data with
   | some (Json.str s) => decide (s ≠ [])
   | _ => false) &&
  (match getField j "role".data with
   | some (Json.str r) => roleEnum.contains r
   | _ => false)

/-- One `newEdges` entry as the claim describes it: from, to,
relationship and proposed fields present, relationship any string. -/
def claimEdgeOk (j : Json) : Bool :=
  (getField j "from".data).isSome && (getField j "to".data).isSome &&
    isStrField (getField j "relationship".data) &&
    (getField j "proposed".data).isSome

/-- The claimed acceptance condition, as stated. -/
def changesClaimPred (j : Json) : Bool :=
  (match getField j "newNodes".data with
   | some (Json.arr ns) => ns.all claimNodeOk
   | _ => false) &&
  (match getField j "newEdges".data with
   | some (Json.arr es) => es.all claimEdgeOk
   | _ => false) &&
  isStrField (getField j "explanation".data)

/-- A change proposal with an empty id and empty label. -/
def emptyIdProposal : Json :=
  Json.obj [("newNodes".data,
      Json.arr [Json.obj [("id".data, Json.str []),
        ("label".data, Json.str []),
        ("role".data, Json.str "page".data)]]),
    ("newEdges".data, Json.arr []),
    ("explanation".data, Json.str "x".data)]

/-- C8 counterexample.  The schema accepts a proposal whose node has an
empty id and empty label — `z.string()` does not require non-emptiness —
so acceptance is not equivalent to the claimed condition. -/
theorem changesSchema_accepts_empty_strings :
    changesSchemaAccepts emptyIdProposal = true ∧
    changesClaimPred emptyIdProposal = false ∧
    ¬ (∀ j : Json, changesSchemaAccepts j = true ↔ changesClaimPred j = true) := by
  refine ⟨rfl, rfl, fun h => ?_⟩
  have h1 := (h emptyIdProposal).mp rfl
  have h2 : changesClaimPred emptyIdProposal = false := rfl
  rw [h1] at h2
  exact absurd h2 (by decide)

/-- A `newNodes` entry conforms when it is an object whose `id` and
`label` fields hold strings (empty allowed) and whose `role` field holds
a string from the role catalog. -/
def NodeSpec (j : Json) : Prop :=
  (∃ fs, j = Json.obj fs) ∧
  (∃ s, getField j "id".data = some (Json.str s)) ∧
  (∃ s, getField j "label".data = some (Json.str s)) ∧
  (∃ r, getField j "role".data = some (Json.str r) ∧ r ∈ roleEnum)

/-- A `newEdges` entry conforms when it is an object with string `from`,
`to` and `relationship` fields (any string) and a boolean `proposed`. -/
def EdgeSpec (j : Json) : Prop :=
  (∃ fs, j = Json.obj fs) ∧
  (∃ s, getField j "from".data = some (Json.str s)) ∧
  (∃ s, getField j "to".data = some (Json.str s)) ∧
  (∃ s, getField j "relationship".data = some (Json.str s)) ∧
  (∃ b, getField j "proposed".data = some (Json.bool b))

/-- A change-proposal document conforms when it is an object with a
`newNodes` array of conforming nodes, a `newEdges` array of conforming
edges, and a string `explanation`; one malformed entry rejects the whole
document. -/
def ChangesSpec (j : Json) : Prop :=
  (∃ fs, j = Json.obj fs) ∧
  (∃ ns, getField j "newNodes".data = some (Json.arr ns) ∧
    ∀ x ∈ ns, NodeSpec x) ∧
  (∃ es, getField j "newEdges".data = some (Json.arr es) ∧
    ∀ x ∈ es, EdgeSpec x) ∧
  (∃ s, getField j "explanation".data = some (Json.str s))

lemma isStrField_iff (o : Option Json) :
    isStrField o = true ↔ ∃ s, o = some (Json.str s) := by
  unfold isStrField
  split
  case h_1 s => simp_all
  case h_2 h =>
    simp only [Bool.false_eq_true, false_iff]
    rintro ⟨s, rfl⟩
    exact h s rfl

lemma isJObj_iff (j : Json) : isJObj j = true ↔ ∃ fs, j = Json.obj fs := by
  constructor
  · intro h
    cases j with
    | obj fs => exact ⟨fs, rfl⟩
    | null => simp [isJObj] at h
    | bool b => simp [isJObj] at h
    | num q => simp [isJObj] at h
    | str s => simp [isJObj] at h
    | arr xs => simp [isJObj] at h
  · rintro ⟨fs, rfl⟩
    rfl

lemma validNode_iff (j : Json) : validNode j = true ↔ NodeSpec j := by
  unfold validNode NodeSpec
  simp only [Bool.and_eq_true, isJObj_iff, isStrField_iff]
  constructor
  · rintro ⟨⟨⟨hobj, hid⟩, hlab⟩, hrole⟩
    refine ⟨hobj, hid, hlab, ?_⟩
    revert hrole
    split
    case h_1 r heq =>
      intro hc
      exact ⟨r, heq, List.elem_iff.mp hc⟩
    case h_2 => simp
  · rintro ⟨hobj, hid, hlab, r, hr, hmem⟩
    refine ⟨⟨⟨hobj, hid⟩, hlab⟩, ?_⟩
    rw [hr]
    exact List.elem_iff.mpr hmem

lemma validEdge_iff (j : Json) : validEdge j = true ↔ EdgeSpec j := by
  unfold validEdge EdgeSpec
  simp only [Bool.and_eq_true, isJObj_iff, isStrField_iff]
  constructor
  · rintro ⟨⟨⟨⟨hobj, hf⟩, ht⟩, hr⟩, hp⟩
    refine ⟨hobj, hf, ht, hr, ?_⟩
    revert hp
    split
    case h_1 b heq => exact fun _ => ⟨b, heq⟩
    case h_2 => simp
  · rintro ⟨hobj, hf, ht, hr, b, hb⟩
    refine ⟨⟨⟨⟨hobj, hf⟩, ht⟩, hr⟩, ?_⟩
    rw [hb]

/-- C8 amended.  The schema accepts exactly the conforming documents:
objects with all three fields of the right shapes, every node id and
label a string (possibly empty) with a catalog role, every edge with
string from/to/relationship and boolean proposed; one malformed entry
rejects the whole document. -/
theorem changesSchema_characterization (j : Json) :
    changesSchemaAccepts j = true ↔ ChangesSpec j := by
  unfold changesSchemaAccepts ChangesSpec
  simp only [Bool.and_eq_true, isJObj_iff, isStrField_iff]
  constructor
  · rintro ⟨⟨⟨hobj, hnodes⟩, hedges⟩, hexp⟩
    refine ⟨hobj, ?_, ?_, hexp⟩
    · revert hnodes
      split
      case h_1 ns heq =>
        intro hall
        exact ⟨ns, heq, fun x hx =>
          (validNode_iff x).mp (List.all_eq_true.mp hall x hx)⟩
      case h_2 => simp
    · revert hedges
      split
      case h_1 es heq =>
        intro hall
        exact ⟨es, heq, fun x hx =>
          (validEdge_iff x).mp (List.all_eq_true.mp hall x hx)⟩
      case h_2 => simp
  · rintro ⟨hobj, ⟨ns, hns, hnall⟩, ⟨es, hes, heall⟩, hexp⟩
    refine ⟨⟨⟨hobj, ?_⟩, ?_⟩, hexp⟩
    · rw [hns]
      exact List.all_eq_true.mpr fun x hx => (validNode_iff x).mpr (hnall x hx)
    · rw [hes]
      exact List.all_eq_true.mpr fun x hx => (validEdge_iff x).mpr (heall x hx)

/-! C4: the Model Client retry policy (source lines 136-197)

    private async makeRequest(messages, attempt = 1) {
      try {
        ... fetch ...
        if (!response.ok) { throw new Error(`OpenRouter API error: ...`); }
        const result = await response.json();
        if (!result.choices || !result.choices.length || !result.choices[0].message) {
          throw new Error("Invalid response format from OpenRouter API");
        }
        return result;
      } catch (error) {
        if (attempt < this.maxRetries) {
          await new Promise((resolve) => setTimeout(resolve, attempt * 2000));
          return this.makeRequest(messages, attempt + 1);
        }
        throw error;
      }
    }

One network attempt is modelled as a `FetchOutcome` (a thrown network
error, or an HTTP response carrying its `ok` flag, status text and parsed
body); the error text of a non-success status is abstracted to the status
text.  The recursion is fuelled; `makeRequest` supplies fuel equal to the
retry budget, which the attempt counter can never exhaust. -/

inductive FetchOutcome where
  | netError (msg : List Char)
  | response (ok : Bool) (statusText : List Char) (body : Json)

/-- JS truthiness of `x.length` for a JSON value: array or string length,
undefined (falsy) otherwise. -/
def jsLengthTruthy : Json → Bool
  | .arr [] => false
  | .arr (_ :: _) => true
  | .str [] => false
  | .str (_ :: _) => true
  | _ => false

/-- Truthiness of `result.choices && result.choices.length && result.choices[0].message`
(the negation of the malformed-envelope test). -/
def envelopeValid (body : Json) : Bool :=
  match getField body "choices".data with
  | none => false
  | some c =>
    jsTruthy c && jsLengthTruthy c &&
      (match jsIndex0 c with
       | some c0 =>
         (match getField c0 "message".data with
          | some msg => jsTruthy msg
          | none => false)
       | none => false)

/-- The body of one `try` block: a network error, a non-success status
and a malformed envelope all throw; otherwise the parsed body is
returned. -/
def attemptOnce : FetchOutcome → Except (List Char) Json
  | .netError m => .error m
  | .response ok statusText body =>
    if ok = false then .error ("OpenRouter API error: ".data ++ statusText)
    else if envelopeValid body = false then
      .error "Invalid response format from OpenRouter API".data
    else .ok body

/-- The observable behavior of one `makeRequest` call tree: its final
result, the attempt numbers called in order, and the backoff delays in
seconds slept between attempts. -/
structure RequestTrace where
  result : Except (List Char) Json
  calls : List Nat
  delays : List Nat

/-- The retry recursion.  When fuel runs out the current attempt is made
without further retries; `makeRequest` supplies enough fuel that this
branch is unreachable. -/
def makeRequestAux (outcomes : Nat → FetchOutcome) (maxRetries : Nat) :
    Nat → Nat → RequestTrace
  | 0, attempt =>
    { result := attemptOnce (outcomes attempt), calls := [attempt], delays := [] }
  | fuel + 1, attempt =>
    match attemptOnce (outcomes attempt) with
    | .ok r => { result := .ok r, calls := [attempt], delays := [] }
    | .error e =>
      if attempt < maxRetries then
        let t := makeRequestAux outcomes maxRetries fuel (attempt + 1)
        { result := t.result, calls := attempt :: t.calls,
          delays := attempt * 2 :: t.delays }
      else { result := .error e, calls := [attempt], delays := [] }

/-- Entry point `makeRequest(messages)`: attempts are numbered from 1. -/
def makeRequest (outcomes : Nat → FetchOutcome) (maxRetries : Nat) : RequestTrace :=
  makeRequestAux outcomes maxRetries maxRetries 1

/-- C4.  With 3 maximum attempts: three failures make exactly the calls
1,2,3 with backoff delays 2s then 4s and propagate the third error
unchanged; a success at attempt 1, 2 or 3 stops there with that result;
and an attempt fails exactly on a network error, a non-success status, or
an envelope without the expected choices/message fields. -/
theorem makeRequest_retry_policy :
    (∀ (outcomes : Nat → FetchOutcome) (e1 e2 e3 : List Char),
      attemptOnce (outcomes 1) = .error e1 →
      attemptOnce (outcomes 2) = .error e2 →
      attemptOnce (outcomes 3) = .error e3 →
      makeRequest outcomes 3 =
        { result := .error e3, calls := [1, 2, 3], delays := [2, 4] }) ∧
    (∀ (outcomes : Nat → FetchOutcome) (r : Json),
      attemptOnce (outcomes 1) = .ok r →
      makeRequest outcomes 3 = { result := .ok r, calls := [1], delays := [] }) ∧
    (∀ (outcomes : Nat → FetchOutcome) (e1 : List Char) (r : Json),
      attemptOnce (outcomes 1) = .error e1 →
      attemptOnce (outcomes 2) = .ok r →
      makeRequest outcomes 3 =
        { result := .ok r, calls := [1, 2], delays := [2] }) ∧
    (∀ (outcomes : Nat → FetchOutcome) (e1 e2 : List Char) (r : Json),
      attemptOnce (outcomes 1) = .error e1 →
      attemptOnce (outcomes 2) = .error e2 →
      attemptOnce (outcomes 3) = .ok r →
      makeRequest outcomes 3 =
        { result := .ok r, calls := [1, 2, 3], delays := [2, 4] }) ∧
    (∀ m, attemptOnce (.netError m) = .error m) ∧
    (∀ st body, attemptOnce (.response false st body) =
      .error ("OpenRouter API error: ".data ++ st)) ∧
    (∀ st body, envelopeValid body = false →
      attemptOnce (.response true st body) =
        .error "Invalid response format from OpenRouter API".data) ∧
    (∀ st body, envelopeValid body = true →
      attemptOnce (.response true st body) = .ok body) := by
  refine ⟨?_, ?_, ?_, ?_, fun m => rfl, fun st body => rfl, ?_, ?_⟩
  · intro outcomes e1 e2 e3 h1 h2 h3
    simp [makeRequest, makeRequestAux, h1, h2, h3]
  · intro outcomes r h1
    simp [makeRequest, makeRequestAux, h1]
  · intro outcomes e1 r h1 h2
    simp [makeRequest, makeRequestAux, h1, h2]
  · intro outcomes e1 e2 r h1 h2 h3
    simp [makeRequest, makeRequestAux, h1, h2, h3]
  · intro st body h
    simp [attemptOnce, h]
  · intro st body h
    simp [attemptOnce, h]

/-- An outcome sequence that always fails with a network error. -/
def alwaysFailOutcomes : Nat → FetchOutcome :=
  fun _ => FetchOutcome.netError "boom".data

/-- A well-formed response envelope. -/
def goodEnvelope : Json :=
  Json.obj [("choices".data,
    Json.arr [Json.obj [("message".data,
      Json.obj [("content".data, Json.str "hi".data)])]])]

/-- An outcome sequence that fails once and then succeeds. -/
def failThenOkOutcomes : Nat → FetchOutcome :=
  fun n => if n = 1 then FetchOutcome.netError "boom".data
    else FetchOutcome.response true "OK".data goodEnvelope

/-- C4 witness: the retry policy applied to concrete outcome sequences
and a concrete malformed envelope. -/
theorem makeRequest_retry_policy_witness :
    makeRequest alwaysFailOutcomes 3 =
      { result := .error "boom".data, calls := [1, 2, 3], delays := [2, 4] } ∧
    makeRequest failThenOkOutcomes 3 =
      { result := .ok goodEnvelope, calls := [1, 2], delays := [2] } ∧
    attemptOnce (.response true "OK".data (Json.obj [])) =
      .error "Invalid response format from OpenRouter API".data ∧
    attemptOnce (.response true "OK".data goodEnvelope) = .ok goodEnvelope :=
  ⟨makeRequest_retry_policy.1 alwaysFailOutcomes "boom".data "boom".data
      "boom".data rfl rfl rfl,
   makeRequest_retry_policy.2.2.1 failThenOkOutcomes "boom".data goodEnvelope
      rfl rfl,
   makeRequest_retry_policy.2.2.2.2.2.2.1 "OK".data (Json.obj []) rfl,
   makeRequest_retry_policy.2.2.2.2.2.2.2 "OK".data goodEnvelope rfl⟩

/-! C3: the response decoder cascade (source lines 610-680)

    let parsed;
    const rawContent = result.choices[0].message.content;
    try {
      parsed = typeof rawContent === "object" ? rawContent : JSON.parse(rawContent);
    } catch (e) {
      try {
        const cleaned = rawContent
          .replace(/```json\n?|\n?```/g, "")
          .replace(/\/\/.+/g, "")
          .replace(/\/\*[\s\S]*?\*\//g, "")
          .trim();
        parsed = JSON.parse(cleaned);
      } catch (e2) {
        const aggressive = rawContent
          .replace(/```[\s\S]*?```/g, "")
          .replace(/[^\x20-\x7E]/g, "")
          .replace(/\/\/.+/g, "")
          .replace(/\/\*[\s\S]*?\*\//g, "")
          .replace(/,(\s*[}\]])/g, "$1")
          .replace(/\s+/g, " ")
          .replace(/([{,]\s*)([a-zA-Z0-9_]+):/g, '$1"$2":')
          .trim();
        const start = aggressive.indexOf("\x7b");
        const end = aggressive.lastIndexOf("\x7d") + 1;
        if (start >= 0 && end > start) { parsed = JSON.parse(aggressive.substring(start, end)); }
        else { throw new Error("Could not find valid JSON structure in response"); }
      }
    }
    if (!parsed.files || !Array.isArray(parsed.files)) { parsed = { files: [], directories: [] }; }
    parsed.files = parsed.files.map((file) => ({
      path: file.path || "",
      imports: Array.isArray(file.imports) ? file.imports : [],
      exports: Array.isArray(file.exports) ? file.exports : [],
      relationships: Array.isArray(file.relationships) ? file.relationships : [],
    }));
    if (!Array.isArray(parsed.directories)) { parsed.directories = []; }
    return parsed;
    // outer catch: return { files: [], directories: [] };

Every global regex replacement is modelled as a fuelled scanner faithful
to the engine: leftmost match, alternatives in order, greedy or lazy
quantifiers as written, scanning resuming after each match and advancing
one character on a failed attempt. -/

/-- Replacement `.replace(/```json\n?|\n?```/g, "")`. -/
def stripJsonFences : Nat → List Char → List Char
  | 0, cs => cs
  | _, [] => []
  | fuel + 1, c :: rest =>
    if ("```json".data).isPrefixOf (c :: rest) then
      match (c :: rest).drop 7 with
      | '\n' :: r2 => stripJsonFences fuel r2
      | r2 => stripJsonFences fuel r2
    else if ("\n```".data).isPrefixOf (c :: rest) then
      stripJsonFences fuel ((c :: rest).drop 4)
    else if ("```".data).isPrefixOf (c :: rest) then
      stripJsonFences fuel ((c :: rest).drop 3)
    else c :: stripJsonFences fuel rest

/-- A character the regex `.` matches (not a line terminator). -/
def isDotChar (c : Char) : Bool := !(c = '\n' || c = '\r')

/-- Replacement `.replace(/\/\/.+/g, "")`: two slashes followed by at least one
non-terminator character, eaten to the end of the line. -/
def removeLineComments : Nat → List Char → List Char
  | 0, cs => cs
  | _, [] => []
  | fuel + 1, c :: rest =>
    if c = '/' then
      match rest with
      | '/' :: r2 =>
        match r2 with
        | d :: _ =>
          if isDotChar d then removeLineComments fuel (r2.dropWhile isDotChar)
          else c :: removeLineComments fuel rest
        | [] => c :: removeLineComments fuel rest
      | _ => c :: removeLineComments fuel rest
    else c :: removeLineComments fuel rest

/-- Replacement `.replace(/\/\*[\s\S]*?\*\//g, "")`: lazy body up to the earliest
closing delimiter; an unterminated opener is left in place. -/
def removeBlockComments : Nat → List Char → List Char
  | 0, cs => cs
  | _, [] => []
  | fuel + 1, c :: rest =>
    if ("/*".data).isPrefixOf (c :: rest) then
      match findSubIdx ("*/".data) ((c :: rest).drop 2) with
      | some i => removeBlockComments fuel (((c :: rest).drop 2).drop (i + 2))
      | none => c :: removeBlockComments fuel rest
    else c :: removeBlockComments fuel rest

/-- Replacement `.replace(/```[\s\S]*?```/g, "")`: a whole fenced block, fence to
fence, is deleted including its contents. -/
def stripCodeBlocks : Nat → List Char → List Char
  | 0, cs => cs
  | _, [] => []
  | fuel + 1, c :: rest =>
    if ("```".data).isPrefixOf (c :: rest) then
      match findSubIdx ("```".data) ((c :: rest).drop 3) with
      | some i => stripCodeBlocks fuel (((c :: rest).drop 3).drop (i + 3))
      | none => c :: stripCodeBlocks fuel rest
    else c :: stripCodeBlocks fuel rest

/-- Replacement `.replace(/[^\x20-\x7E]/g, "")`. -/
def removeNonPrintables (cs : List Char) : List Char :=
  cs.filter (fun c => 32 ≤ c.toNat && c.toNat ≤ 126)

/-- Replacement `.replace(/,(\s*[}\]])/g, "$1")`: a comma directly before (possibly
whitespace and) a closing bracket is dropped. -/
def removeTrailingCommas : Nat → List Char → List Char
  | 0, cs => cs
  | _, [] => []
  | fuel + 1, c :: rest =>
    if c = ',' then
      match rest.dropWhile isWsChar with
      | d :: r2 =>
        if d = '\x7d' ∨ d = ']' then
          rest.takeWhile isWsChar ++ d :: removeTrailingCommas fuel r2
        else c :: removeTrailingCommas fuel rest
      | [] => c :: removeTrailingCommas fuel rest
    else c :: removeTrailingCommas fuel rest

/-- Replacement `.replace(/\s+/g, " ")`. -/
def collapseWs : Nat → List Char → List Char
  | 0, cs => cs
  | _, [] => []
  | fuel + 1, c :: rest =>
    if isWsChar c then ' ' :: collapseWs fuel (rest.dropWhile isWsChar)
    else c :: collapseWs fuel rest

/-- Replacement `.replace(/([{,]\s*)([a-zA-Z0-9_]+):/g, '$1"$2":')`: a bare
identifier key after an opening brace or comma is quoted. -/
def quoteKeys : Nat → List Char → List Char
  | 0, cs => cs
  | _, [] => []
  | fuel + 1, c :: rest =>
    if c = '\x7b' ∨ c = ',' then
      match (rest.dropWhile isWsChar).dropWhile isIdentChar with
      | ':' :: r2 =>
        if (rest.dropWhile isWsChar).takeWhile isIdentChar = [] then
          c :: quoteKeys fuel rest
        else
          c :: (rest.takeWhile isWsChar ++ '"' ::
            ((rest.dropWhile isWsChar).takeWhile isIdentChar ++ '"' :: ':' ::
              quoteKeys fuel r2))
      | _ => c :: quoteKeys fuel rest
    else c :: quoteKeys fuel rest

/-- JavaScript `String.prototype.trim()`. -/
def jsTrim (cs : List Char) : List Char :=
  ((cs.dropWhile isWsChar).reverse.dropWhile isWsChar).reverse

def jsStripJsonFences (cs : List Char) : List Char := stripJsonFences cs.length cs
def jsRemoveLineComments (cs : List Char) : List Char := removeLineComments cs.length cs
def jsRemoveBlockComments (cs : List Char) : List Char := removeBlockComments cs.length cs
def jsStripCodeBlocks (cs : List Char) : List Char := stripCodeBlocks cs.length cs
def jsRemoveTrailingCommas (cs : List Char) : List Char := removeTrailingCommas cs.length cs
def jsCollapseWs (cs : List Char) : List Char := collapseWs cs.length cs
def jsQuoteKeys (cs : List Char) : List Char := quoteKeys cs.length cs

/-- The second strategy's cleanup chain. -/
def cleanedStrategy2 (raw : List Char) : List Char :=
  jsTrim (jsRemoveBlockComments (jsRemoveLineComments (jsStripJsonFences raw)))

/-- The third strategy's aggressive cleanup chain. -/
def aggressiveStrategy3 (raw : List Char) : List Char :=
  jsTrim (jsQuoteKeys (jsCollapseWs (jsRemoveTrailingCommas
    (jsRemoveBlockComments (jsRemoveLineComments
      (removeNonPrintables (jsStripCodeBlocks raw)))))))

/-- The substring from `indexOf("\x7b")` to `lastIndexOf("\x7d") + 1`, `none` when the
bounds test fails (the thrown "Could not find valid JSON structure"). -/
def firstLastBraceSub (cs : List Char) : Option (List Char) :=
  match findSubIdx ['\x7b'] cs with
  | none => none
  | some s =>
    match findSubIdx ['\x7d'] cs.reverse with
    | none => none
    | some rj =>
      if s < cs.length - rj then some ((cs.drop s).take (cs.length - rj - s))
      else none

/-- The three parse strategies in order; `none` means all three threw. -/
def chooseParsed (raw : List Char) : Option Json :=
  match jsonParse raw with
  | some j => some j
  | none =>
    match jsonParse (cleanedStrategy2 raw) with
    | some j => some j
    | none =>
      match firstLastBraceSub (aggressiveStrategy3 raw) with
      | some sub => jsonParse sub
      | none => none

/-- One entry of the normalized `files` array. -/
structure FileEntryJ where
  path : Json
  imports : List Json
  exports : List Json
  relationships : List Json

/-- The decoded `IntermediateData` value. -/
structure IntermediateDataJ where
  files : List FileEntryJ
  directories : List Json

/-- The normalization of one `files` element.  Property access on `null`
throws (`none`), reaching the outer catch. -/
def normalizeFile : Json → Option FileEntryJ
  | Json.null => none
  | j =>
    some { path :=
             match getField j "path".data with
             | some v => if jsTruthy v then v else Json.str []
             | none => Json.str []
           imports :=
             match getField j "imports".data with
             | some (Json.arr xs) => xs
             | _ => []
           exports :=
             match getField j "exports".data with
             | some (Json.arr xs) => xs
             | _ => []
           relationships :=
             match getField j "relationships".data with
             | some (Json.arr xs) => xs
             | _ => [] }

def mapNormalize : List Json → Option (List FileEntryJ)
  | [] => some []
  | x :: xs =>
    match normalizeFile x with
    | none => none
    | some f =>
      match mapNormalize xs with
      | none => none
      | some fs => some (f :: fs)

/-- The structure validation after a successful parse; `none` is a
thrown `TypeError` (absorbed by the outer catch). -/
def validateStructure (parsed : Json) : Option IntermediateDataJ :=
  match getField parsed "files".data with
  | some (Json.arr xs) =>
    (mapNormalize xs).map fun fs =>
      { files := fs
        directories :=
          match getField parsed "directories".data with
          | some (Json.arr ds) => ds
          | _ => [] }
  | _ => some { files := [], directories := [] }

/-- The degraded default structure. -/
def emptyIntermediate : IntermediateDataJ := { files := [], directories := [] }

/-- The decoder: the parse cascade, the structure validation, and the
outer catch returning the empty default. -/
def parseXmlToUnstructuredMap (raw : List Char) : IntermediateDataJ :=
  match chooseParsed raw with
  | none => emptyIntermediate
  | some j =>
    match validateStructure j with
    | some d => d
    | none => emptyIntermediate

/-- A response wrapped in a fenced `json` code block. -/
def fencedInput : List Char :=
  "```json\n\x7b\"files\": [], \"directories\": [\"src\"]\x7d\n```".data

/-- The same data, unfenced, corrupted with unquoted keys and a trailing
comma. -/
def corruptedInput : List Char :=
  "\x7bfiles: [], directories: [\"src\"],\x7d".data

/-- Text no strategy can interpret. -/
def garbageInput : List Char := "the model could not comply".data

/-- C3.  The decoder is total and never raises: a raw text that already
parses as JSON is decoded directly; the fenced input fails the direct
parse and is recovered by the second strategy; the corrupted input fails
the first two strategies and is recovered by the third (aggressive
cleanup, then the first-to-last-brace substring); and uninterpretable
text yields the empty default structure. -/
theorem decoder_cascade :
    (∀ (raw : List Char) (j : Json), jsonParse raw = some j →
      parseXmlToUnstructuredMap raw =
        (validateStructure j).getD emptyIntermediate) ∧
    jsonParse fencedInput = none ∧
    jsonParse (cleanedStrategy2 fencedInput) =
      some (Json.obj [("files".data, Json.arr []),
        ("directories".data, Json.arr [Json.str "src".data])]) ∧
    parseXmlToUnstructuredMap fencedInput =
      { files := [], directories := [Json.str "src".data] } ∧
    jsonParse corruptedInput = none ∧
    jsonParse (cleanedStrategy2 corruptedInput) = none ∧
    (firstLastBraceSub (aggressiveStrategy3 corruptedInput)).isSome = true ∧
    parseXmlToUnstructuredMap corruptedInput =
      { files := [], directories := [Json.str "src".data] } ∧
    parseXmlToUnstructuredMap garbageInput = emptyIntermediate := by
  refine ⟨?_, rfl, rfl, rfl, rfl, rfl, rfl, rfl, rfl⟩
  intro raw j h
  unfold parseXmlToUnstructuredMap chooseParsed
  rw [h]
  cases hv : validateStructure j <;> simp [hv]

/-- C3 witness: the direct-parse clause applied to a concrete raw text
that is valid JSON. -/
theorem decoder_cascade_witness :
    parseXmlToUnstructuredMap "\x7b\"files\": [], \"directories\": []\x7d".data =
      (validateStructure (Json.obj [("files".data, Json.arr []),
        ("directories".data, Json.arr [])])).getD emptyIntermediate :=
  decoder_cascade.1 "\x7b\"files\": [], \"directories\": []\x7d".data
    (Json.obj [("files".data, Json.arr []), ("directories".data, Json.arr [])]) rfl

end Repomap
